import Mathlib

/-!
Verification of the anl2025 multi-deal negotiation tournament core.

This file shallowly embeds the data model and operations of the
`anl2025` package (`ufun.py`, `runner.py`, `tournament.py`) and proves
or refutes the specified properties.  Python floats are modelled as
exact rationals (`ℚ`), except where `numpy` standard deviations force
real square roots (`ℝ`).  Python exceptions are modelled with
`Option`/`Except`.  Nondeterministic library calls (`random.shuffle`,
`random.choices`, negmas mechanism execution, Python `float()` parsing)
are modelled as explicitly passed parameters, quantified in theorems.
-/

namespace ANL2025

/-- Python list slice `l[i:j]` for nonnegative bounds: the elements at
indices `i ≤ idx < j` (empty when `j ≤ i`, clipped at the length). -/
def pySlice (l : List α) (i j : Nat) : List α := (l.take j).drop i

/-- An issue of a negotiation outcome space: a named domain of values
(negmas `make_issue(values, name)`). -/
structure Issue (α : Type) where
  name : String
  values : List α
deriving DecidableEq

/-- An outcome space (`negmas.outcomes.OutcomeSpace`): either an
`EnumeratingOutcomeSpace` (an explicit list of outcomes), a
`CartesianOutcomeSpace` (a list of issues), or some other kind that
`flatten_outcome_spaces` rejects with a `TypeError`. -/
inductive OSpace (α : Type) where
  | enumerating (name : String) (outcomes : List α)
  | cartesian (name : String) (issues : List (Issue α))
  | other (name : String)
deriving DecidableEq

/-- The issues of a Cartesian outcome space (`os.issues`). -/
def OSpace.issues : OSpace α → List (Issue α)
  | .cartesian _ iss => iss
  | _ => []

/-- The inner `_name` helper of `flatten_outcome_spaces` in
`ufun.py`: optionally prefixes the source space name and suffixes the
source-thread index. -/
def flatName (addIdx addOs : Bool) (i : Nat) (osName issueName : String) : String :=
  let x := issueName
  let x := if addOs && osName ≠ "" then osName ++ ":" ++ x else x
  if addIdx then x ++ ":" ++ toString i else x

/-- One iteration of the loop of `flatten_outcome_spaces`: the issue
(value list, name) pairs contributed by the `i`-th outcome space,
together with its entry of `nissues`.  A space that is neither
enumerating nor Cartesian raises `TypeError`. -/
def flattenStep (addIdx addOs : Bool) (i : Nat) :
    OSpace α → Except String (List (List α × String) × Nat)
  | .enumerating name outs => .ok ([(outs, flatName addIdx addOs i "" name)], 1)
  | .cartesian name iss =>
      .ok (iss.map (fun issue => (issue.values, flatName addIdx addOs i name issue.name)),
        iss.length)
  | .other _ => .error "TypeError: outcome space cannot be combined with other outcome-spaces"

/-- The indexed loop of `flatten_outcome_spaces`, accumulating issue
data and per-space issue counts. -/
def flattenAux (addIdx addOs : Bool) : Nat → List (OSpace α) →
    Except String (List (Issue α) × List Nat)
  | _, [] => .ok ([], [])
  | i, os :: rest => do
      let (pairs, n) ← flattenStep addIdx addOs i os
      let (issues, ns) ← flattenAux addIdx addOs (i + 1) rest
      .ok (pairs.map (fun p => Issue.mk p.2 p.1) ++ issues, n :: ns)

/-- `flatten_outcome_spaces` (ufun.py:82): concatenates the issues of
the input spaces into one Cartesian product and returns it with the
tuple of per-space issue counts. -/
def flatten_outcome_spaces (oss : List (OSpace α)) (addIdx addOs : Bool) :
    Except String (OSpace α × List Nat) := do
  let (issues, ns) ← flattenAux addIdx addOs 0 oss
  .ok (.cartesian "" issues, ns)

/-- `unflatten_outcome_space` (ufun.py:49): slices the issue list of a
Cartesian outcome space at `beg = [0] + nissues[:-1]`, `end = nissues`,
producing one space named `OS{i}` per slice `issues[i:j]`. -/
def unflatten_outcome_space (outcome_space : OSpace α) (nissues : List Nat) :
    List (OSpace α) :=
  let beg := 0 :: nissues.dropLast
  (beg.zip nissues).map fun p =>
    OSpace.cartesian ("OS" ++ toString p.1) (pySlice outcome_space.issues p.1 p.2)

/-- `FlatCenterUFun._unflatten` (ufun.py:276): slices a flat value
tuple at `beg = [0] + nissues[:-1]`, `end = nissues` into per-thread
value tuples. -/
def flat_unflatten (nissues : List Nat) (outcome : List α) : List (List α) :=
  let beg := 0 :: nissues.dropLast
  (beg.zip nissues).map fun p => pySlice outcome p.1 p.2

/-- C1: refuted.  Flatten/unflatten is not a round trip: flattening two
one-issue spaces yields per-thread issue counts `(1, 1)`, but
`unflatten_outcome_space` slices at `[0:1]` and `[1:1]` (the bounds are
the raw counts, not cumulative sums), so the second recovered space has
zero issues instead of one, and `_unflatten` maps the flat outcome
`(a, c)` to `((a,), ())` instead of `((a,), (c,))`. -/
theorem C1_flatten_unflatten_counterexample :
    flatten_outcome_spaces
        [OSpace.cartesian "A" [Issue.mk "x" ["a", "b"]],
         OSpace.cartesian "B" [Issue.mk "y" ["c", "d"]]] true true
      = Except.ok
          (OSpace.cartesian ""
            [Issue.mk "A:x:0" ["a", "b"], Issue.mk "B:y:1" ["c", "d"]], [1, 1])
    ∧ unflatten_outcome_space
        (OSpace.cartesian ""
          [Issue.mk "A:x:0" ["a", "b"], Issue.mk "B:y:1" ["c", "d"]]) [1, 1]
      = [OSpace.cartesian "OS0" [Issue.mk "A:x:0" ["a", "b"]],
         OSpace.cartesian "OS1" []]
    ∧ ((unflatten_outcome_space
        (OSpace.cartesian ""
          [Issue.mk "A:x:0" ["a", "b"], Issue.mk "B:y:1" ["c", "d"]]) [1, 1]).map
        (fun os => os.issues.length)) = [1, 0]
    ∧ flat_unflatten [1, 1] ["a", "c"] = [["a"], []] := by
  refine ⟨rfl, rfl, rfl, rfl⟩

/-! ## Center utility functions (ufun.py)

Outcomes are value tuples; utilities are exact rationals.  A negmas
`BaseUtilityFunction` applied with `u(offer)` returns its reserved
value on `None` and `u.eval(offer)` otherwise; an edge/side utility
function is therefore modelled as a total map `Option Outcome → ℚ`
that already folds in its treatment of absence. -/

/-- An outcome: one value per issue, position-significant. -/
abbrev Outcome := List String

/-- An offer made to a center ufun: one `Option Outcome` slot per
thread, or `none` for no offer at all. -/
abbrev CenterOffer := Option (List (Option Outcome))

/-- Python `max(values)` on a nonempty list (raises on `[]`; theorems
only apply it to nonempty lists, where this equals the maximum). -/
def pyMax : List ℚ → ℚ
  | [] => 0
  | x :: xs => xs.foldl max x

/-- `MaxCenterUFun.combine` (ufun.py:322): the maximum of the
per-thread utility values. -/
def maxCombine (values : List ℚ) : ℚ := pyMax values

/-- `UtilityCombiningCenterUFun.eval` (ufun.py:303): the reserved
value on a falsy (absent or empty) offer, else `combine` of each
thread's own ufun applied to its slot (absent slots passed through,
`zip` truncating at the shorter list as in Python). -/
def combiningCenterEval (combine : List ℚ → ℚ) (ufuns : List (Option Outcome → ℚ))
    (reserved_value : ℚ) : CenterOffer → ℚ
  | none => reserved_value
  | some [] => reserved_value
  | some (o :: os) => combine (((ufuns.zip (o :: os)).map fun p => p.1 p.2))

/-- `UtilityCombiningCenterUFun.side_ufuns` (ufun.py:308): returns the
stored per-thread ufuns directly (after asserting the count, carried
as a hypothesis in theorems). -/
def combiningSideUfuns (ufuns : List (Option Outcome → ℚ)) : List (Option Outcome → ℚ) :=
  ufuns

/-- A `MaxCenterUFun` (ufun.py:315): a combining center ufun whose
`combine` is the maximum. -/
structure MaxCenterUFun where
  ufuns : List (Option Outcome → ℚ)
  reserved_value : ℚ

/-- `MaxCenterUFun`'s inherited `eval`. -/
def MaxCenterUFun.eval (C : MaxCenterUFun) (offer : CenterOffer) : ℚ :=
  combiningCenterEval maxCombine C.ufuns C.reserved_value offer

/-- Modelled from the spec: scenario generation
(`anl2025.scenario.make_multideal_scenario`, absent from `src/`) draws
the center reserved value uniformly from
`[center_reserved_value_min, center_reserved_value_max]`, both of
which default to `0.0`, so the default center reserved value is `0`. -/
def default_center_reserved_value : ℚ := 0

/-- `SideUFun.eval` (ufun.py:339): builds a length-`n_edges` tuple of
`None`, places the offer at `index`, and applies the parent center
ufun (whose `+__call__+` on a non-`None` tuple is its `eval`). -/
def sideUFunEval (center_eval : List (Option Outcome) → ℚ) (n_edges index : Nat)
    (offer : Option Outcome) : ℚ :=
  center_eval ((List.replicate n_edges (none : Option Outcome)).set index offer)

/-- Helper: `pyMax` of a nonempty list is an element of the list. -/
lemma pyMax_mem (x : ℚ) (xs : List ℚ) : pyMax (x :: xs) ∈ x :: xs := by
  induction xs generalizing x with
  | nil => simp [pyMax]
  | cons y ys ih =>
    have hx : pyMax (x :: y :: ys) = pyMax (max x y :: ys) := rfl
    have h := ih (max x y)
    rw [List.mem_cons] at h
    rw [hx]
    rcases h with h | h
    · rcases max_choice x y with hm | hm
      · rw [h, hm]; exact List.mem_cons_self _ _
      · rw [h, hm]; exact List.mem_cons_of_mem _ (List.mem_cons_self _ _)
    · exact List.mem_cons_of_mem _ (List.mem_cons_of_mem _ h)

/-- Helper: `pyMax` of a nonempty list bounds every element. -/
lemma le_pyMax (x : ℚ) (xs : List ℚ) : ∀ v ∈ x :: xs, v ≤ pyMax (x :: xs) := by
  induction xs generalizing x with
  | nil =>
    intro v hv
    rw [List.mem_singleton] at hv
    simp [pyMax, hv]
  | cons y ys ih =>
    intro v hv
    have hx : pyMax (x :: y :: ys) = pyMax (max x y :: ys) := rfl
    rw [List.mem_cons, List.mem_cons] at hv
    rw [hx]
    rcases hv with hv | hv | hv
    · rw [hv]
      exact le_trans (le_max_left x y) (ih (max x y) _ (List.mem_cons_self _ _))
    · rw [hv]
      exact le_trans (le_max_right x y) (ih (max x y) _ (List.mem_cons_self _ _))
    · exact ih (max x y) v (List.mem_cons_of_mem _ hv)

/-- C7: confirmed.  For a `MaxCenterUFun` over per-thread utilities
`u1..uk` and an offer tuple `(o1..ok)` of matching length, `eval` is
the maximum of `u1(o1), ..., uk(ok)` (an element of that value list
that bounds every entry); `eval` of an absent offer (`None` or the
empty tuple) is the reserved value, which is `0` for the default
construction. -/
theorem C7_max_center_eval (ufuns : List (Option Outcome → ℚ)) (rv : ℚ)
    (outcomes : List Outcome) (hlen : outcomes.length = ufuns.length)
    (hne : ufuns ≠ []) :
    (MaxCenterUFun.eval ⟨ufuns, rv⟩ (some (outcomes.map some)) ∈
        (ufuns.zip (outcomes.map some)).map (fun p => p.1 p.2) ∧
      ∀ v ∈ (ufuns.zip (outcomes.map some)).map (fun p => p.1 p.2),
        v ≤ MaxCenterUFun.eval ⟨ufuns, rv⟩ (some (outcomes.map some))) ∧
    MaxCenterUFun.eval ⟨ufuns, rv⟩ none = rv ∧
    MaxCenterUFun.eval ⟨ufuns, rv⟩ (some []) = rv ∧
    MaxCenterUFun.eval ⟨ufuns, default_center_reserved_value⟩ none = 0 := by
  refine ⟨?_, rfl, rfl, rfl⟩
  obtain ⟨u, us, rfl⟩ : ∃ u us, ufuns = u :: us := by
    cases ufuns with
    | nil => exact absurd rfl hne
    | cons u us => exact ⟨u, us, rfl⟩
  obtain ⟨o, os, rfl⟩ : ∃ o os, outcomes = o :: os := by
    cases outcomes with
    | nil => simp at hlen
    | cons o os => exact ⟨o, os, rfl⟩
  have hshape :
      MaxCenterUFun.eval ⟨u :: us, rv⟩ (some ((o :: os).map some)) =
        pyMax (((u :: us).zip ((o :: os).map some)).map fun p => p.1 p.2) := rfl
  rw [hshape]
  have hcons :
      ((u :: us).zip ((o :: os).map some)).map (fun p => p.1 p.2) =
        u (some o) :: ((us.zip (os.map some)).map fun p => p.1 p.2) := by
    simp [List.zip]
  rw [hcons]
  exact ⟨pyMax_mem _ _, le_pyMax _ _⟩

/-- C7 witness: the spec's concrete scenario — two single-issue
threads, both side utilities scoring `1` for `"yes"` and `0`
otherwise; `eval((("yes",), ("no",)))` is the maximum `1` and the
absent offer evaluates to the reserved value `0`. -/
theorem C7_max_center_eval_witness :
    ([["yes"], ["no"]] : List Outcome).length =
        ([fun o => if o = some ["yes"] then (1 : ℚ) else 0,
          fun o => if o = some ["yes"] then (1 : ℚ) else 0] :
          List (Option Outcome → ℚ)).length ∧
      (MaxCenterUFun.eval
          ⟨[fun o => if o = some ["yes"] then (1 : ℚ) else 0,
            fun o => if o = some ["yes"] then (1 : ℚ) else 0], 0⟩
          (some (([["yes"], ["no"]] : List Outcome).map some)) ∈
        (([fun o => if o = some ["yes"] then (1 : ℚ) else 0,
           fun o => if o = some ["yes"] then (1 : ℚ) else 0] :
           List (Option Outcome → ℚ)).zip
            (([["yes"], ["no"]] : List Outcome).map some)).map (fun p => p.1 p.2) ∧
        ∀ v ∈ (([fun o => if o = some ["yes"] then (1 : ℚ) else 0,
            fun o => if o = some ["yes"] then (1 : ℚ) else 0] :
            List (Option Outcome → ℚ)).zip
              (([["yes"], ["no"]] : List Outcome).map some)).map (fun p => p.1 p.2),
          v ≤ MaxCenterUFun.eval
            ⟨[fun o => if o = some ["yes"] then (1 : ℚ) else 0,
              fun o => if o = some ["yes"] then (1 : ℚ) else 0], 0⟩
            (some (([["yes"], ["no"]] : List Outcome).map some))) ∧
      MaxCenterUFun.eval
          ⟨[fun o => if o = some ["yes"] then (1 : ℚ) else 0,
            fun o => if o = some ["yes"] then (1 : ℚ) else 0], 0⟩ none = 0 ∧
      MaxCenterUFun.eval
          ⟨[fun o => if o = some ["yes"] then (1 : ℚ) else 0,
            fun o => if o = some ["yes"] then (1 : ℚ) else 0], 0⟩ (some []) = 0 ∧
      MaxCenterUFun.eval
          ⟨[fun o => if o = some ["yes"] then (1 : ℚ) else 0,
            fun o => if o = some ["yes"] then (1 : ℚ) else 0],
           default_center_reserved_value⟩ none = 0 :=
  ⟨rfl, C7_max_center_eval _ _ _ rfl (by simp)⟩

/-- A per-thread utility that scores every offer `0` (its reserved
value is also `0`). -/
def uZero : Option Outcome → ℚ := fun _ => 0

/-- A per-thread utility with reserved value `2/5` (the scenario
generator draws edge reserved values in `[0.1, 0.4]` by default) that
scores every actual offer `0`. -/
def uResv : Option Outcome → ℚ
  | none => 2 / 5
  | some _ => 0

/-- Helper: element `j` of `replicate n none` after setting slot `i`
to `o` is `o` at `i` and `none` elsewhere. -/
lemma set_replicate_getD (n i j : ℕ) (o : Option Outcome) (hj : j < n) :
    ((List.replicate n (none : Option Outcome)).set i o).getD j none =
      if j = i then o else none := by
  by_cases h : j = i
  · subst h
    rw [List.getD_eq_getElem?_getD, List.getElem?_set_self (by simpa using hj)]
    simp
  · rw [List.getD_eq_getElem?_getD, List.getElem?_set_ne (fun hne => h hne.symm)]
    simp [List.getElem?_replicate, hj, h]

/-- C2 counterexample: for the Combining/Max variant the claimed
projection identity fails.  With per-thread utilities `uZero` and
`uResv`, `side_ufuns` returns the stored ufuns directly, so the side
utility of thread `0` at offer `("yes",)` is `uZero(("yes",)) = 0`,
while the center `eval` on the tuple `(("yes",), None)` — offer at
position `0`, absent elsewhere — is `max(0, uResv(None)) = 2/5`. -/
theorem C2_combining_side_counterexample :
    combiningSideUfuns [uZero, uResv] = [uZero, uResv]
    ∧ (List.replicate 2 (none : Option Outcome)).set 0 (some ["yes"]) =
        [some ["yes"], none]
    ∧ uZero (some ["yes"]) = 0
    ∧ MaxCenterUFun.eval ⟨[uZero, uResv], 0⟩ (some [some ["yes"], none]) = 2 / 5
    ∧ (0 : ℚ) ≠ 2 / 5 := by
  refine ⟨rfl, rfl, rfl, ?_, by norm_num⟩
  show pyMax [uZero (some ["yes"]), uResv none] = 2 / 5
  show max (0 : ℚ) (2 / 5) = 2 / 5
  norm_num

/-- C2 amended: variants that use the generic `SideUFun` derivation
(the `CenterUFun` default and `SingleAgreementSideUFunMixin`) satisfy
the projection identity — the side utility of thread `index` at `o`
equals the center `eval` on the length-`n_edges` tuple with `o` at
`index` and `None` elsewhere; the Combining variant instead returns
its stored per-thread ufuns, so its `i`-th side utility at `o` is
`u_i(o)` (which can differ from the projection, as the counterexample
shows). -/
theorem C2_side_projection_amended :
    (∀ (center_eval : List (Option Outcome) → ℚ) (n index : ℕ)
        (offer : Option Outcome), index < n →
        ∃ offers : List (Option Outcome),
          sideUFunEval center_eval n index offer = center_eval offers ∧
          offers.length = n ∧
          ∀ j, j < n → offers.getD j none = if j = index then offer else none)
    ∧ ∀ (ufuns : List (Option Outcome → ℚ)) (index : ℕ) (offer : Option Outcome),
        index < (combiningSideUfuns ufuns).length →
        ((combiningSideUfuns ufuns).getD index uZero) offer =
          (ufuns.getD index uZero) offer := by
  constructor
  · intro center_eval n index offer hidx
    refine ⟨(List.replicate n (none : Option Outcome)).set index offer, rfl, ?_, ?_⟩
    · simp
    · intro j hj
      exact set_replicate_getD n index j offer hj
  · intro ufuns index offer _
    rfl

/-- C2 amended witness: the generic side ufun of a two-thread center
at index `0` evaluates the center on `(("yes",), None)`, and the
Combining variant's side ufun at index `0` is `uZero` itself. -/
theorem C2_side_projection_amended_witness :
    ((0 : ℕ) < 2 ∧
      ∃ offers : List (Option Outcome),
        sideUFunEval (fun l => MaxCenterUFun.eval ⟨[uZero, uResv], 0⟩ (some l)) 2 0
            (some ["yes"]) =
          MaxCenterUFun.eval ⟨[uZero, uResv], 0⟩ (some offers) ∧
        offers.length = 2 ∧
        ∀ j, j < 2 →
          offers.getD j none = if j = 0 then some ["yes"] else none) ∧
    ((0 : ℕ) < (combiningSideUfuns [uZero, uResv]).length ∧
      ((combiningSideUfuns [uZero, uResv]).getD 0 uZero) (some ["yes"]) =
        (([uZero, uResv] : List (Option Outcome → ℚ)).getD 0 uZero) (some ["yes"])) :=
  ⟨⟨by norm_num,
    C2_side_projection_amended.1 (fun l => MaxCenterUFun.eval ⟨[uZero, uResv], 0⟩ (some l))
      2 0 (some ["yes"]) (by norm_num)⟩,
   ⟨by norm_num [combiningSideUfuns],
    C2_side_projection_amended.2 [uZero, uResv] 0 (some ["yes"])
      (by norm_num [combiningSideUfuns])⟩⟩

/-! ## The mean/standard-deviation center ufun (`MeanSMCenterUFun`)

Python `float(s)` parsing is modelled as an explicit parameter
`pyfloat : String → Option ℚ` (`none` models a raised `ValueError`);
`numpy` means are exact rationals and standard deviations real square
roots of exact rational variances. -/

/-- `np.mean` of a list of numbers. -/
def npMean (l : List ℚ) : ℚ := l.sum / l.length

/-- The (population) variance `np.std` squares: mean squared deviation
from the mean. -/
def npVar (l : List ℚ) : ℚ := (l.map fun x => (x - npMean l) ^ 2).sum / l.length

/-- `np.std` of a list of numbers: the square root of the population
variance. -/
noncomputable def npStd (l : List ℚ) : ℝ := Real.sqrt ((npVar l : ℚ) : ℝ)

/-- The inner loop of `MeanSMCenterUFun.eval` (ufun.py:369-377) for
one thread `e` with a non-empty outcome: starting from the defaultdict
entry `[0.0] * n_edges`, each value `v` at issue position `i` whose
tag-stripped remainder `v[1:]` parses sets slot `i` (an out-of-range
`i` raises `IndexError`, which is caught, leaving the entry — `set` is
likewise a no-op there); the entry exists only if at least one value
parsed, since Python evaluates `float(v[1:])` before touching
`vals[e]`. -/
def msRow (pyfloat : String → Option ℚ) (n_edges : ℕ) (outcome : List String) :
    Option (List ℚ) :=
  let parsed := outcome.enum.filterMap fun p =>
    (pyfloat (p.2.drop 1)).map fun q => (p.1, q)
  if parsed.isEmpty then none
  else some (parsed.foldl (fun acc p => acc.set p.1 p.2) (List.replicate n_edges (0 : ℚ)))

/-- The `vals.values()` of `MeanSMCenterUFun.eval`, in insertion
order: one row per thread whose outcome is truthy and produced a
defaultdict entry. -/
def msRows (pyfloat : String → Option ℚ) (n_edges : ℕ)
    (l : List (Option Outcome)) : List (List ℚ) :=
  l.filterMap fun oc => match oc with
    | none => none
    | some [] => none
    | some (v :: vs) => msRow pyfloat n_edges (v :: vs)

/-- `MeanSMCenterUFun.eval` (ufun.py:363): `0.0` on a falsy offer,
`0.1` when the offer has fewer than two slots, else the sum over the
defaultdict rows of `mean + std`, divided by the number of rows
(`none` models the `ZeroDivisionError` raised when no row exists). -/
noncomputable def MeanSMCenterUFun.eval (pyfloat : String → Option ℚ) :
    CenterOffer → Option ℝ
  | none => some 0
  | some [] => some 0
  | some (o :: os) =>
      if (o :: os).length < 2 then some (1 / 10)
      else
        let rows := msRows pyfloat (o :: os).length (o :: os)
        if rows.length = 0 then none
        else some ((rows.map fun x => ((npMean x : ℝ) + npStd x)).sum / (rows.length : ℝ))

/-- Modelled from the spec (claim C3's description of the intended
computation, matching the class docstring "the average mean+std dev.
in each issue of the agreements"): `0.0` on an empty or `None` offer;
`0.1` when fewer than two threads among the slots are present
(non-absent); otherwise, for each issue position, collect each present
thread's numeric value (a leading tag character stripped, unparsable
values counting as zero), take `mean + std` across threads per issue
position, sum across positions, and divide by the thread count. -/
noncomputable def meanSM_claim_eval (pyfloat : String → Option ℚ) :
    CenterOffer → ℝ
  | none => 0
  | some [] => 0
  | some (o :: os) =>
      let present := (o :: os).filterMap fun oc => match oc with
        | none => none
        | some [] => none
        | some (v :: vs) => some (v :: vs)
      if present.length < 2 then 1 / 10
      else
        let m := present.headI.length
        let cols := (List.range m).map fun p =>
          present.map fun out => (pyfloat ((out.getD p "").drop 1)).getD 0
        (cols.map fun x => ((npMean x : ℝ) + npStd x)).sum / ((o :: os).length : ℝ)

/-- A concrete instance of Python `float()` restricted to the digit
strings the counterexample uses. -/
def pyFloatDemo : String → Option ℚ := fun s =>
  if s = "0" then some 0 else if s = "1" then some 1 else none

/-- Helper: the variance of `[1, 1]` is `0`. -/
lemma npVar_one_one : npVar [(1 : ℚ), 1] = 0 := by
  norm_num [npVar, npMean]

/-- Helper: the variance of `[0, 0]` is `0`. -/
lemma npVar_zero_zero : npVar [(0 : ℚ), 0] = 0 := by
  norm_num [npVar, npMean]

/-- Helper: the variance of `[1, 0]` is `1/4`. -/
lemma npVar_one_zero : npVar [(1 : ℚ), 0] = 1 / 4 := by
  norm_num [npVar, npMean]

/-- Helper: the standard deviation of `[1, 1]` is `0`. -/
lemma npStd_one_one : npStd [(1 : ℚ), 1] = 0 := by
  unfold npStd
  rw [npVar_one_one]
  simp

/-- Helper: the standard deviation of `[0, 0]` is `0`. -/
lemma npStd_zero_zero : npStd [(0 : ℚ), 0] = 0 := by
  unfold npStd
  rw [npVar_zero_zero]
  simp

/-- Helper: the standard deviation of `[1, 0]` is `1/2`. -/
lemma npStd_one_zero : npStd [(1 : ℚ), 0] = 1 / 2 := by
  unfold npStd
  rw [npVar_one_zero]
  rw [show (((1 / 4 : ℚ) : ℝ)) = (1 / 2 : ℝ) ^ 2 by norm_num]
  exact Real.sqrt_sq (by norm_num)

/-- Helper: the defaultdict rows for the two-thread offer
`(("x1","x1"), ("x0","x0"))` are `[[1, 1], [0, 0]]` — one row per
thread, not per issue position. -/
lemma msRows_demo :
    msRows pyFloatDemo 2 [some ["x1", "x1"], some ["x0", "x0"]] =
      [[(1 : ℚ), 1], [0, 0]] := by
  decide

/-- C3: refuted (code bug).  On the two-thread offer
`(("x1","x1"), ("x0","x0"))` the code returns `1/2`: it computes
`mean + std` per **thread** over a zero-padded length-`n_edges` row
(`vals[e][i]` transposes the intended `vals[i][e]`, as the
`[0.0] * n_edges` row length betrays) and divides by the number of
rows, whereas the claimed per-issue-across-threads computation gives
`1`.  On the all-absent two-slot offer `(None, None)` the code raises
`ZeroDivisionError` (no defaultdict entry exists) instead of the
claimed `0.1` for fewer than two present threads. -/
theorem C3_meansm_eval_divergence :
    MeanSMCenterUFun.eval pyFloatDemo (some [some ["x1", "x1"], some ["x0", "x0"]]) =
      some (1 / 2)
    ∧ meanSM_claim_eval pyFloatDemo (some [some ["x1", "x1"], some ["x0", "x0"]]) = 1
    ∧ ((1 : ℝ) / 2) ≠ 1
    ∧ MeanSMCenterUFun.eval pyFloatDemo (some [none, none]) = none
    ∧ meanSM_claim_eval pyFloatDemo (some [none, none]) = 1 / 10 := by
  refine ⟨?_, ?_, by norm_num, ?_, ?_⟩
  · show (if (2 : ℕ) < 2 then some ((1 : ℝ) / 10)
      else
        let rows := msRows pyFloatDemo 2 [some ["x1", "x1"], some ["x0", "x0"]]
        if rows.length = 0 then none
        else some ((rows.map fun x => ((npMean x : ℝ) + npStd x)).sum / (rows.length : ℝ)))
      = some (1 / 2)
    rw [if_neg (by norm_num)]
    simp only [msRows_demo]
    rw [if_neg (by norm_num)]
    simp only [List.map_cons, List.map_nil, List.sum_cons, List.sum_nil,
      npStd_one_one, npStd_zero_zero, List.length_cons, List.length_nil]
    norm_num [npMean]
  · show (let present := [["x1", "x1"], ["x0", "x0"]]
      if present.length < 2 then (1 : ℝ) / 10
      else
        let m := present.headI.length
        let cols := (List.range m).map fun p =>
          present.map fun out => (pyFloatDemo ((out.getD p "").drop 1)).getD 0
        (cols.map fun x => ((npMean x : ℝ) + npStd x)).sum / (2 : ℝ)) = 1
    rw [if_neg (by norm_num)]
    have hcols : (List.range ([["x1", "x1"], ["x0", "x0"]] : List (List String)).headI.length).map
        (fun p => ([["x1", "x1"], ["x0", "x0"]] : List (List String)).map
          fun out => (pyFloatDemo ((out.getD p "").drop 1)).getD 0) =
        [[(1 : ℚ), 0], [1, 0]] := by decide
    simp only [hcols]
    simp only [List.map_cons, List.map_nil, List.sum_cons, List.sum_nil, npStd_one_zero]
    norm_num [npMean]
  · rfl
  · rfl

/-! ## Session running (runner.py)

The negmas mechanism-execution service (`SAOMechanism.runall`) is
external; it is modelled as a parameter `runall : Unit → List (Option
Outcome)` producing the per-thread agreements (`none` = no
agreement). -/

/-- `SessionResults` (runner.py:42), restricted to the fields the
claims touch: per-thread agreements, center utility, per-thread edge
utilities. -/
structure SessionResults where
  agreements : List (Option Outcome)
  center_utility : ℚ
  edge_utilities : List ℚ
deriving DecidableEq

/-- `AssignedScenario.run` (runner.py:73): with `dry`, returns
all-`None` agreements and zero utilities without touching the
execution service; otherwise executes all threads through `runall`,
evaluates the center ufun on the agreement tuple and each edge ufun on
its own thread's agreement. -/
def AssignedScenario.run (nedges : ℕ) (center_ufun : List (Option Outcome) → ℚ)
    (edge_ufuns : List (Option Outcome → ℚ)) (runall : Unit → List (Option Outcome))
    (dry : Bool) : SessionResults :=
  if dry then
    { agreements := List.replicate nedges none
      center_utility := 0
      edge_utilities := List.replicate nedges 0 }
  else
    let agreements := runall ()
    { agreements := agreements
      center_utility := center_ufun agreements
      edge_utilities := (edge_ufuns.zip agreements).map fun p => p.1 p.2 }

/-- C9: confirmed.  A dry run's result is independent of the
mechanism-execution service (the same for any two `runall` oracles,
so the service is never consulted) and always has all-`None`
agreements, center utility `0`, and all-zero edge utilities. -/
theorem C9_dry_run (nedges : ℕ) (center_ufun : List (Option Outcome) → ℚ)
    (edge_ufuns : List (Option Outcome → ℚ))
    (runallA runallB : Unit → List (Option Outcome)) :
    AssignedScenario.run nedges center_ufun edge_ufuns runallA true =
      AssignedScenario.run nedges center_ufun edge_ufuns runallB true
    ∧ (AssignedScenario.run nedges center_ufun edge_ufuns runallA true).agreements =
        List.replicate nedges none
    ∧ (AssignedScenario.run nedges center_ufun edge_ufuns runallA true).center_utility = 0
    ∧ (AssignedScenario.run nedges center_ufun edge_ufuns runallA true).edge_utilities =
        List.replicate nedges 0 :=
  ⟨rfl, rfl, rfl, rfl⟩

/-! ## Tournament scheduling and scoring (tournament.py)

Competitors are identified by their disambiguated name strings
(`type_name(c)` or `type_name(c)_{hash(params)}`); the random shuffle
of the edge list and the random fill-in draw are modelled as explicit
parameters. -/

/-- `ScoreRecord` (tournament.py:31). -/
structure ScoreRecord where
  agent : String
  utility : ℚ
  partner_average_utility : ℚ
  scenario : String
  repetition : ℕ
  rotation : ℕ
  scenario_index : ℕ
  index : ℕ
deriving DecidableEq

/-- `JobInfo` (tournament.py:42), restricted to the fields scoring
reads: provenance, the center's identity, the identities of
`edge_info` in their (shuffled) order, and `nedges_counted`. -/
structure JobInfo where
  sname : String
  i : ℕ
  j : ℕ
  k : ℕ
  cname : String
  edge_names : List String
  nedges_counted : ℕ
deriving DecidableEq

/-- `process_info` (tournament.py:380): emits the ScoreRecords of one
completed session (one for the center scaled by the center multiplier,
which defaults to the session's edge count, and one per counted edge
scaled by the edge multiplier) together with the raw, unscaled
`final_scores` increments (center plus counted edges only). -/
def process_info (center_multiplier_val : Option ℚ) (edge_multiplier : ℚ)
    (job : JobInfo) (r : SessionResults) :
    List ScoreRecord × List (String × ℚ) :=
  let center_multiplier := center_multiplier_val.getD (job.edge_names.length : ℚ)
  let mean_edge_utility := r.edge_utilities.sum / (r.edge_utilities.length : ℚ)
  let counted := (job.edge_names.take job.nedges_counted).enum
  (⟨job.cname, r.center_utility * center_multiplier, mean_edge_utility,
      job.sname, job.i, job.j, job.k, 0⟩ ::
    counted.map fun p =>
      ⟨p.2, r.edge_utilities.getD p.1 0 * edge_multiplier, r.center_utility,
        job.sname, job.i, job.j, job.k, p.1 + 1⟩,
   (job.cname, r.center_utility) ::
    counted.map fun p => (p.2, r.edge_utilities.getD p.1 0))

/-- The `final_scores` defaultdict's value for one identity: the sum
of that identity's accumulated increments (a pure, order-independent
sum). -/
def finalScoreOf (incs : List (String × ℚ)) (name : String) : ℚ :=
  ((incs.filter fun p => p.1 == name).map Prod.snd).sum

/-- C8 counterexample: an identity that plays an uncounted edge role
accumulates nothing.  In a fill-in session (`nedges_counted = 1`,
edges `["F", "B"]`) competitor `"B"` plays the second edge with raw
utility `5`, yet its final-score accumulation over the session is `0`;
only the center `"A"` (raw `1`) and the counted first edge `"F"` (raw
`2`) accumulate. -/
theorem C8_uncounted_edge_counterexample :
    "B" ∈ (JobInfo.mk "s" 0 0 0 "A" ["F", "B"] 1).edge_names
    ∧ (SessionResults.mk [none, none] 1 [2, 5]).edge_utilities.getD 1 0 = 5
    ∧ finalScoreOf
        (process_info none 1 (JobInfo.mk "s" 0 0 0 "A" ["F", "B"] 1)
          (SessionResults.mk [none, none] 1 [2, 5])).2 "B" = 0
    ∧ finalScoreOf
        (process_info none 1 (JobInfo.mk "s" 0 0 0 "A" ["F", "B"] 1)
          (SessionResults.mk [none, none] 1 [2, 5])).2 "A" = 1
    ∧ finalScoreOf
        (process_info none 1 (JobInfo.mk "s" 0 0 0 "A" ["F", "B"] 1)
          (SessionResults.mk [none, none] 1 [2, 5])).2 "F" = 2 := by
  refine ⟨by simp, rfl, ?_, ?_, ?_⟩ <;>
    norm_num [process_info, finalScoreOf, List.enum, List.enumFrom, List.filter,
      show (("A" == "B") : Bool) = false from rfl,
      show (("F" == "B") : Bool) = false from rfl,
      show (("A" == "A") : Bool) = true from rfl,
      show (("F" == "A") : Bool) = false from rfl,
      show (("A" == "F") : Bool) = false from rfl,
      show (("F" == "F") : Bool) = true from rfl]

/-- C8 amended: each completed session emits exactly one ScoreRecord
for the center (utility scaled by the center multiplier, which
defaults to the session's edge count) and one per counted edge
(utility scaled by the edge multiplier), and the final-score
accumulation adds the raw unscaled utilities — but only for the
center and the first `nedges_counted` edges; an uncounted edge role
accumulates nothing (see the counterexample). -/
theorem C8_scoring_amended (cm : Option ℚ) (em : ℚ) (job : JobInfo)
    (r : SessionResults)
    (hc : job.nedges_counted ≤ job.edge_names.length)
    (hu : job.nedges_counted ≤ r.edge_utilities.length) :
    (process_info cm em job r).1.length = 1 + job.nedges_counted
    ∧ (process_info cm em job r).1[0]? = some
        ⟨job.cname, r.center_utility * cm.getD (job.edge_names.length : ℚ),
          r.edge_utilities.sum / (r.edge_utilities.length : ℚ),
          job.sname, job.i, job.j, job.k, 0⟩
    ∧ (∀ e, e < job.nedges_counted →
        (process_info cm em job r).1[e + 1]? = some
          ⟨job.edge_names.getD e "", r.edge_utilities.getD e 0 * em,
            r.center_utility, job.sname, job.i, job.j, job.k, e + 1⟩)
    ∧ (process_info cm em job r).2.length = 1 + job.nedges_counted
    ∧ (process_info cm em job r).2[0]? = some (job.cname, r.center_utility)
    ∧ (∀ e, e < job.nedges_counted →
        (process_info cm em job r).2[e + 1]? =
          some (job.edge_names.getD e "", r.edge_utilities.getD e 0)) := by
  have hlen : ((job.edge_names.take job.nedges_counted).enum).length =
      job.nedges_counted := by
    simp [Nat.min_eq_left hc]
  have helem : ∀ e, e < job.nedges_counted →
      ((job.edge_names.take job.nedges_counted).enum)[e]? =
        some (e, job.edge_names.getD e "") := by
    intro e he
    rw [List.getElem?_enum, List.getElem?_take, if_pos he,
      List.getElem?_eq_getElem (lt_of_lt_of_le he hc),
      List.getD_eq_getElem _ _ (lt_of_lt_of_le he hc)]
    rfl
  refine ⟨?_, ?_, ?_, ?_, ?_, ?_⟩
  · simp only [process_info, List.length_cons, List.length_map, hlen]
    omega
  · simp only [process_info]
    exact List.getElem?_cons_zero
  · intro e he
    simp only [process_info]
    rw [List.getElem?_cons_succ, List.getElem?_map, helem e he]
    rfl
  · simp only [process_info, List.length_cons, List.length_map, hlen]
    omega
  · simp only [process_info]
    exact List.getElem?_cons_zero
  · intro e he
    simp only [process_info]
    rw [List.getElem?_cons_succ, List.getElem?_map, helem e he]
    rfl

/-- C8 witness: a fully counted two-edge session — the second record
is the first counted edge `"B"` with utility `2 * 1`, and the third
final-score increment is the second counted edge `"C"` with its raw
utility `5`. -/
theorem C8_scoring_amended_witness :
    ((JobInfo.mk "s" 1 2 0 "A" ["B", "C"] 2).nedges_counted ≤
        (JobInfo.mk "s" 1 2 0 "A" ["B", "C"] 2).edge_names.length
      ∧ (JobInfo.mk "s" 1 2 0 "A" ["B", "C"] 2).nedges_counted ≤
        (SessionResults.mk [none, none] 1 [2, 5]).edge_utilities.length)
    ∧ (process_info none 1 (JobInfo.mk "s" 1 2 0 "A" ["B", "C"] 2)
        (SessionResults.mk [none, none] 1 [2, 5])).1[0 + 1]? = some
        ⟨(JobInfo.mk "s" 1 2 0 "A" ["B", "C"] 2).edge_names.getD 0 "",
          (SessionResults.mk [none, none] 1 [2, 5]).edge_utilities.getD 0 0 * 1,
          (SessionResults.mk [none, none] 1 [2, 5]).center_utility,
          "s", 1, 2, 0, 0 + 1⟩
    ∧ (process_info none 1 (JobInfo.mk "s" 1 2 0 "A" ["B", "C"] 2)
        (SessionResults.mk [none, none] 1 [2, 5])).2[1 + 1]? = some
        ((JobInfo.mk "s" 1 2 0 "A" ["B", "C"] 2).edge_names.getD 1 "",
          (SessionResults.mk [none, none] 1 [2, 5]).edge_utilities.getD 1 0) :=
  ⟨⟨by norm_num, by norm_num⟩,
   (C8_scoring_amended none 1 (JobInfo.mk "s" 1 2 0 "A" ["B", "C"] 2)
      (SessionResults.mk [none, none] 1 [2, 5]) (by norm_num) (by norm_num)).2.2.1
     0 (by norm_num),
   (C8_scoring_amended none 1 (JobInfo.mk "s" 1 2 0 "A" ["B", "C"] 2)
      (SessionResults.mk [none, none] 1 [2, 5]) (by norm_num)
      (by norm_num)).2.2.2.2.2 1 (by norm_num)⟩

/-! ## Dispatch (Tournament.run, tournament.py:427-446)

Running one session (`run_session`, which drives the external negmas
mechanisms) is modelled as a parameter
`f : JobInfo → Except String SessionResults`; `.error` models a raised
exception. -/

/-- `TournamentResults` (tournament.py:73): the accumulated
`final_scores` increments (the defaultdict's value for an identity is
their `finalScoreOf` sum), all ScoreRecords, and all session
results. -/
structure TournamentResults where
  final_scores : List (String × ℚ)
  scores : List ScoreRecord
  session_results : List (JobInfo × SessionResults)
deriving DecidableEq

/-- The serial dispatch loop (tournament.py:427-430, `n_jobs is
None`): each job is run and processed in order with **no** exception
handler, so a raised exception propagates out of `Tournament.run`
(modelled by `.error`, discarding the accumulator). -/
def serialRunAux (f : JobInfo → Except String SessionResults) (cm : Option ℚ)
    (em : ℚ) : List JobInfo →
    List ScoreRecord × List (String × ℚ) × List (JobInfo × SessionResults) →
    Except String TournamentResults
  | [], acc => .ok ⟨acc.2.1, acc.1, acc.2.2⟩
  | job :: rest, acc =>
      match f job with
      | .error e => .error e
      | .ok r =>
          serialRunAux f cm em rest
            (acc.1 ++ (process_info cm em job r).1,
              acc.2.1 ++ (process_info cm em job r).2, acc.2.2 ++ [(job, r)])

/-- Serial dispatch of a whole job list from the empty accumulators. -/
def serialRun (f : JobInfo → Except String SessionResults) (cm : Option ℚ)
    (em : ℚ) (jobs : List JobInfo) : Except String TournamentResults :=
  serialRunAux f cm em jobs ([], [], [])

/-- The parallel dispatch loop (tournament.py:431-445): every job is
submitted, and each completed future is processed inside
`try/except` — a failing job is printed and skipped, never aborting
the others or the tournament. -/
def parallelRunAux (f : JobInfo → Except String SessionResults) (cm : Option ℚ)
    (em : ℚ) : List JobInfo →
    List ScoreRecord × List (String × ℚ) × List (JobInfo × SessionResults) →
    TournamentResults
  | [], acc => ⟨acc.2.1, acc.1, acc.2.2⟩
  | job :: rest, acc =>
      match f job with
      | .error _ => parallelRunAux f cm em rest acc
      | .ok r =>
          parallelRunAux f cm em rest
            (acc.1 ++ (process_info cm em job r).1,
              acc.2.1 ++ (process_info cm em job r).2, acc.2.2 ++ [(job, r)])

/-- Parallel dispatch of a whole job list from the empty
accumulators (completion order modelled as submission order; the
final-score reduction is order-independent anyway). -/
def parallelRun (f : JobInfo → Except String SessionResults) (cm : Option ℚ)
    (em : ℚ) (jobs : List JobInfo) : TournamentResults :=
  parallelRunAux f cm em jobs ([], [], [])

/-- A benign job and a job whose session raises, for the dispatch
counterexample. -/
def jGood : JobInfo := ⟨"s", 0, 0, 0, "A", ["B"], 1⟩

/-- The failing job of the dispatch counterexample. -/
def jBad : JobInfo := ⟨"s", 0, 1, 0, "BAD", ["B"], 1⟩

/-- The session result every non-failing demo job produces. -/
def rOK : SessionResults := ⟨[none], 1, [1]⟩

/-- A session runner that raises exactly on `jBad`. -/
def fDemo : JobInfo → Except String SessionResults := fun job =>
  if job.cname = "BAD" then .error "boom" else .ok rOK

/-- C4 counterexample: under serial dispatch (`n_jobs is None`) a
failing job aborts the tournament — `Tournament.run` propagates the
exception and returns no `TournamentResults` — even though the same
job list under parallel dispatch completes with the failing job
excluded and both sibling jobs processed. -/
theorem C4_serial_failure_counterexample :
    serialRun fDemo none 1 [jGood, jBad, jGood] = Except.error "boom"
    ∧ (¬ ∃ t, serialRun fDemo none 1 [jGood, jBad, jGood] = Except.ok t)
    ∧ (parallelRun fDemo none 1 [jGood, jBad, jGood]).session_results =
        [(jGood, rOK), (jGood, rOK)] := by
  have hser : serialRun fDemo none 1 [jGood, jBad, jGood] = Except.error "boom" := rfl
  refine ⟨hser, ?_, rfl⟩
  rintro ⟨t, ht⟩
  rw [hser] at ht
  exact Except.noConfusion ht

/-- Helper: closed form of the parallel dispatch loop — the processed
jobs are exactly the non-failing ones, in order, and scoring covers
exactly those. -/
lemma parallelRunAux_spec (f : JobInfo → Except String SessionResults)
    (cm : Option ℚ) (em : ℚ) (jobs : List JobInfo) :
    ∀ sc fs res,
      parallelRunAux f cm em jobs (sc, fs, res) =
        ⟨fs ++ (jobs.filterMap fun job => (f job).toOption.map fun r => (job, r)).flatMap
            (fun p => (process_info cm em p.1 p.2).2),
          sc ++ (jobs.filterMap fun job => (f job).toOption.map fun r => (job, r)).flatMap
            (fun p => (process_info cm em p.1 p.2).1),
          res ++ jobs.filterMap fun job => (f job).toOption.map fun r => (job, r)⟩ := by
  induction jobs with
  | nil => intro sc fs res; simp [parallelRunAux]
  | cons job rest ih =>
    intro sc fs res
    cases hf : f job with
    | error e =>
      simp only [parallelRunAux, hf]
      simp [ih, List.filterMap_cons, hf, Except.toOption]
    | ok r =>
      simp only [parallelRunAux, hf]
      simp [ih, List.filterMap_cons, hf, Except.toOption, List.append_assoc]

/-- Helper: the serial dispatch loop returns a result exactly when
every remaining job runs without an exception. -/
lemma serialRunAux_ok_iff (f : JobInfo → Except String SessionResults)
    (cm : Option ℚ) (em : ℚ) (jobs : List JobInfo) :
    ∀ acc, (∃ t, serialRunAux f cm em jobs acc = .ok t) ↔
      ∀ job ∈ jobs, ∃ r, f job = .ok r := by
  induction jobs with
  | nil =>
    intro acc
    simp only [List.not_mem_nil, false_implies, implies_true, iff_true]
    exact ⟨_, rfl⟩
  | cons job rest ih =>
    intro acc
    cases hf : f job with
    | error e =>
      simp only [serialRunAux, hf]
      constructor
      · rintro ⟨t, ht⟩
        exact Except.noConfusion ht
      · intro h
        obtain ⟨r, hr⟩ := h job (List.mem_cons_self _ _)
        rw [hf] at hr
        exact Except.noConfusion hr
    | ok r =>
      simp only [serialRunAux, hf]
      rw [ih]
      constructor
      · intro h j hj
        rcases List.mem_cons.mp hj with hj | hj
        · exact ⟨r, hj ▸ hf⟩
        · exact h j hj
      · intro h j hj
        exact h j (List.mem_cons_of_mem _ hj)

/-- C4 amended: a failing job is caught and excluded only under
parallel dispatch, where the remaining jobs are all processed and a
`TournamentResults` is always produced; under serial dispatch
(`n_jobs` `None`) a single failing job makes the run fail — it
returns a result exactly when every job runs without exception. -/
theorem C4_dispatch_amended (f : JobInfo → Except String SessionResults)
    (cm : Option ℚ) (em : ℚ) (jobs : List JobInfo) :
    ((∃ t, serialRun f cm em jobs = .ok t) ↔ ∀ job ∈ jobs, ∃ r, f job = .ok r)
    ∧ parallelRun f cm em jobs =
        ⟨(jobs.filterMap fun job => (f job).toOption.map fun r => (job, r)).flatMap
            (fun p => (process_info cm em p.1 p.2).2),
          (jobs.filterMap fun job => (f job).toOption.map fun r => (job, r)).flatMap
            (fun p => (process_info cm em p.1 p.2).1),
          jobs.filterMap fun job => (f job).toOption.map fun r => (job, r)⟩ := by
  constructor
  · exact serialRunAux_ok_iff f cm em jobs ([], [], [])
  · rw [parallelRun, parallelRunAux_spec]
    simp

/-! ## Job generation (Tournament.run, tournament.py:310-376)

One (repetition, scenario) iteration of the job-generation loop.  The
shuffled competitor pool is passed directly (a permutation of the
competitors), the `random.choices` fill-in draw as `extra`, and the
`random.shuffle(edge_info)` call as a per-rotation reordering function
`shuffles j`. -/

/-- The `players` of rotation `j` (tournament.py:320-329): the first
`nedges+1` shuffled competitors when the pool is large enough, else
the pool extended with the randomly drawn fill-ins. -/
def players_for (competitors : List String) (nedges : ℕ) (extra : List String) :
    List String :=
  if nedges + 1 ≤ competitors.length then competitors.take (nedges + 1)
  else competitors ++ extra

/-- `nedges_counted` (tournament.py:331-335): all edges, or
`min(poolSize - 1, nedges)` when double scoring is disabled. -/
def nedges_counted_for (no_double_scores : Bool) (ncompetitors nedges : ℕ) : ℕ :=
  if no_double_scores then min (ncompetitors - 1) nedges else nedges

/-- `edge_info` before its shuffle (tournament.py:341): all players
except the center, `players[:j] + players[j+1:]`. -/
def edge_info_pre (players : List String) (j : ℕ) : List String :=
  players.take j ++ players.drop (j + 1)

/-- The job-accumulating loop: `none` models an uncaught exception
(an out-of-range `players[j]`) aborting generation before any session
runs. -/
def buildAll (f : ℕ → Option JobInfo) : List ℕ → Option (List JobInfo)
  | [] => some []
  | j :: rest =>
      match f j with
      | none => none
      | some b => (buildAll f rest).map fun l => b :: l

/-- The inner `for j in range(len(competitors))` loop of
`Tournament.run` for one (repetition `i`, scenario `k`) pair: rotation
`j`'s job takes `players[j]` as center (raising `IndexError` when out
of range), the shuffled remaining players as edges, and
`nedges_counted` counted edges. -/
def genJobs (sname : String) (i k : ℕ) (no_double_scores : Bool)
    (competitors : List String) (nedges : ℕ) (extra : List String)
    (shuffles : ℕ → List String → List String) : Option (List JobInfo) :=
  let players := players_for competitors nedges extra
  let ncounted := nedges_counted_for no_double_scores competitors.length nedges
  buildAll
    (fun j => (players[j]?).map fun center =>
      JobInfo.mk sname i j k center (shuffles j (edge_info_pre players j)) ncounted)
    (List.range competitors.length)

/-- Helper: the loop aborts exactly when some index fails. -/
lemma buildAll_eq_none_iff (f : ℕ → Option JobInfo) (l : List ℕ) :
    buildAll f l = none ↔ ∃ j ∈ l, f j = none := by
  induction l with
  | nil => simp [buildAll]
  | cons j rest ih =>
    cases hf : f j with
    | none => simp [buildAll, hf]
    | some b => simp [buildAll, hf, ih, Option.map_eq_none]

/-- Helper: when every index succeeds, the loop collects all jobs in
order. -/
lemma buildAll_eq_some_of (f : ℕ → Option JobInfo) (g : ℕ → JobInfo) (l : List ℕ)
    (h : ∀ j ∈ l, f j = some (g j)) : buildAll f l = some (l.map g) := by
  induction l with
  | nil => simp [buildAll]
  | cons j rest ih =>
    rw [List.map_cons]
    have hj := h j (List.mem_cons_self _ _)
    have hrest := ih fun a ha => h a (List.mem_cons_of_mem _ ha)
    simp [buildAll, hj, hrest]

/-- Helper: reading each position of a list back by index recovers the
list. -/
lemma map_getD_range (l : List String) (d : String) :
    (List.range l.length).map (fun j => l.getD j d) = l := by
  induction l with
  | nil => rfl
  | cons a l ih =>
    rw [List.length_cons, List.range_succ_eq_map, List.map_cons, List.map_map]
    have hcomp : ((fun j => (a :: l).getD j d) ∘ Nat.succ) = fun j => l.getD j d := rfl
    rw [hcomp, ih]
    rfl

/-- Helper: when the pool is no larger than `nedges+1`, `players[j]`
is the `j`-th shuffled competitor for every `j` in the loop range. -/
lemma players_for_getElem (competitors : List String) (nedges : ℕ)
    (extra : List String) (j : ℕ) (hj : j < competitors.length)
    (hlen : competitors.length ≤ nedges + 1) :
    (players_for competitors nedges extra)[j]? = competitors[j]? := by
  unfold players_for
  split
  · rw [List.take_of_length_le hlen]
  · rw [List.getElem?_append, if_pos hj]

/-- Helper: under the pool-size precondition, generation succeeds and
rotation `j`'s center is the `j`-th shuffled competitor. -/
lemma genJobs_centers (sname : String) (i k : ℕ) (nd : Bool) (cs : List String)
    (nedges : ℕ) (extra : List String) (shuffles : ℕ → List String → List String)
    (hlen : cs.length ≤ nedges + 1) :
    ((genJobs sname i k nd cs nedges extra shuffles).getD []).map JobInfo.cname = cs := by
  have hsome : genJobs sname i k nd cs nedges extra shuffles =
      some ((List.range cs.length).map fun j =>
        JobInfo.mk sname i j k (cs.getD j "")
          (shuffles j (edge_info_pre (players_for cs nedges extra) j))
          (nedges_counted_for nd cs.length nedges)) := by
    unfold genJobs
    apply buildAll_eq_some_of
    intro j hj
    rw [List.mem_range] at hj
    rw [players_for_getElem cs nedges extra j hj hlen, List.getElem?_eq_getElem hj]
    simp [List.getD_eq_getElem?_getD, List.getElem?_eq_getElem hj]
  rw [hsome, Option.getD_some, List.map_map]
  exact map_getD_range cs ""

/-- C10: confirmed.  Job generation for one (repetition, scenario)
pair aborts with an out-of-range `players[j]` access — before any
session runs — exactly when the competitor pool is larger than
`nedges + 1`; with at most `nedges + 1` competitors it is total. -/
theorem C10_pool_size_precondition (sname : String) (i k : ℕ) (nd : Bool)
    (competitors : List String) (nedges : ℕ) (extra : List String)
    (shuffles : ℕ → List String → List String) :
    (genJobs sname i k nd competitors nedges extra shuffles = none ↔
      nedges + 1 < competitors.length) := by
  unfold genJobs
  rw [buildAll_eq_none_iff]
  have hiff : ∀ j, ((players_for competitors nedges extra)[j]?).map
      (fun center => JobInfo.mk sname i j k center
        (shuffles j (edge_info_pre (players_for competitors nedges extra) j))
        (nedges_counted_for nd competitors.length nedges)) = none ↔
      (players_for competitors nedges extra).length ≤ j := by
    intro j
    rw [Option.map_eq_none', List.getElem?_eq_none_iff]
  constructor
  · rintro ⟨j, hj, hfj⟩
    rw [List.mem_range] at hj
    rw [hiff j] at hfj
    by_cases h : nedges + 1 ≤ competitors.length
    · rw [players_for, if_pos h, List.length_take, Nat.min_eq_left h] at hfj
      omega
    · rw [players_for, if_neg h, List.length_append] at hfj
      omega
  · intro h
    refine ⟨nedges + 1, List.mem_range.mpr h, ?_⟩
    rw [hiff (nedges + 1), players_for, if_pos (by omega), List.length_take]
    omega

/-- Helper: joining one permutation of the pool per repetition gives
every identity a total count of (repetitions) × (its multiplicity in
the pool). -/
lemma count_flatten_of_perm (competitors : List String)
    (F : ℕ × List String → List String) (assignments : List (ℕ × List String))
    (h : ∀ p ∈ assignments, (F p).Perm competitors) :
    ∀ x, ((assignments.map F).flatten).count x =
      assignments.length * competitors.count x := by
  induction assignments with
  | nil => simp
  | cons p rest ih =>
    intro x
    rw [List.map_cons, List.flatten_cons, List.count_append,
      (h p (List.mem_cons_self _ _)).count_eq,
      ih (fun q hq => h q (List.mem_cons_of_mem _ hq)), List.length_cons]
    ring

/-- C6: confirmed.  In each (repetition, scenario) pair the loop makes
each shuffled competitor the center of exactly one job, so over any
list of repetitions — each an arbitrary permutation of the competitor
pool — every competitor centers exactly (number of repetitions) ×
(its multiplicity in the pool) times, identically across
competitors of equal multiplicity. -/
theorem C6_center_distribution (sname : String) (k : ℕ) (nd : Bool)
    (competitors : List String) (nedges : ℕ) (extra : List String)
    (shuffles : ℕ → List String → List String)
    (assignments : List (ℕ × List String))
    (hlen : competitors.length ≤ nedges + 1)
    (hperm : ∀ p ∈ assignments, p.2.Perm competitors) :
    (∀ p ∈ assignments,
        ((genJobs sname p.1 k nd p.2 nedges extra shuffles).getD []).map
          JobInfo.cname = p.2)
    ∧ ∀ x, ((assignments.map fun p =>
          ((genJobs sname p.1 k nd p.2 nedges extra shuffles).getD []).map
            JobInfo.cname).flatten).count x =
        assignments.length * competitors.count x := by
  have hcenters : ∀ p ∈ assignments,
      ((genJobs sname p.1 k nd p.2 nedges extra shuffles).getD []).map
        JobInfo.cname = p.2 := by
    intro p hp
    exact genJobs_centers sname p.1 k nd p.2 nedges extra shuffles
      ((hperm p hp).length_eq.trans_le hlen)
  refine ⟨hcenters, ?_⟩
  refine count_flatten_of_perm competitors _ assignments fun p hp => ?_
  rw [hcenters p hp]
  exact hperm p hp

/-- C6 witness: the spec's concrete scheduling scenario — competitors
`{A, B, C}`, `n_edges = 2`, three repetitions of one scenario, each an
arbitrary shuffle of the pool: every competitor centers exactly
`3 = 3 × 1` times. -/
theorem C6_center_distribution_witness :
    ((["A", "B", "C"] : List String).length ≤ 2 + 1
      ∧ ∀ p ∈ ([(0, ["A", "B", "C"]), (1, ["B", "C", "A"]), (2, ["C", "A", "B"])] :
          List (ℕ × List String)), p.2.Perm ["A", "B", "C"])
    ∧ ((([(0, ["A", "B", "C"]), (1, ["B", "C", "A"]), (2, ["C", "A", "B"])] :
          List (ℕ × List String)).map fun p =>
        ((genJobs "s" p.1 0 true p.2 2 [] (fun _ l => l)).getD []).map
          JobInfo.cname).flatten).count "A" =
        ([(0, ["A", "B", "C"]), (1, ["B", "C", "A"]), (2, ["C", "A", "B"])] :
          List (ℕ × List String)).length * (["A", "B", "C"] : List String).count "A"
    ∧ ((([(0, ["A", "B", "C"]), (1, ["B", "C", "A"]), (2, ["C", "A", "B"])] :
          List (ℕ × List String)).map fun p =>
        ((genJobs "s" p.1 0 true p.2 2 [] (fun _ l => l)).getD []).map
          JobInfo.cname).flatten).count "B" =
        ([(0, ["A", "B", "C"]), (1, ["B", "C", "A"]), (2, ["C", "A", "B"])] :
          List (ℕ × List String)).length * (["A", "B", "C"] : List String).count "B"
    ∧ ((([(0, ["A", "B", "C"]), (1, ["B", "C", "A"]), (2, ["C", "A", "B"])] :
          List (ℕ × List String)).map fun p =>
        ((genJobs "s" p.1 0 true p.2 2 [] (fun _ l => l)).getD []).map
          JobInfo.cname).flatten).count "C" =
        ([(0, ["A", "B", "C"]), (1, ["B", "C", "A"]), (2, ["C", "A", "B"])] :
          List (ℕ × List String)).length * (["A", "B", "C"] : List String).count "C" :=
  ⟨⟨by decide, by decide⟩,
   (C6_center_distribution "s" 0 true ["A", "B", "C"] 2 [] (fun _ l => l)
      [(0, ["A", "B", "C"]), (1, ["B", "C", "A"]), (2, ["C", "A", "B"])]
      (by decide) (by decide)).2 "A",
   (C6_center_distribution "s" 0 true ["A", "B", "C"] 2 [] (fun _ l => l)
      [(0, ["A", "B", "C"]), (1, ["B", "C", "A"]), (2, ["C", "A", "B"])]
      (by decide) (by decide)).2 "B",
   (C6_center_distribution "s" 0 true ["A", "B", "C"] 2 [] (fun _ l => l)
      [(0, ["A", "B", "C"]), (1, ["B", "C", "A"]), (2, ["C", "A", "B"])]
      (by decide) (by decide)).2 "C"⟩

/-- C5: refuted (code bug).  With pool `["A", "B"]` and `n_edges = 2`
the fill-in `"F"` is appended, `nedges_counted = min(poolSize-1,
n_edges) = 1` as claimed — but `random.shuffle(edge_info)` runs
**after** the fill-ins are appended, so for the shuffle that reverses
the edge list, rotation `0`'s edges are `["F", "B"]`: the counted
prefix is the fill-in `"F"`, which receives the edge ScoreRecord and
the final-score contribution `3`, while competitor `"B"` receives
nothing, contradicting the code's own comment "ignore the randomly
added edges if no-double-scores is set". -/
theorem C5_fillin_scored_counterexample :
    genJobs "s" 0 0 true ["A", "B"] 2 ["F"] (fun _ l => l.reverse) =
      some [JobInfo.mk "s" 0 0 0 "A" ["F", "B"] 1,
            JobInfo.mk "s" 0 1 0 "B" ["F", "A"] 1]
    ∧ nedges_counted_for true 2 2 = min (2 - 1) 2
    ∧ (["F", "B"] : List String).Perm (edge_info_pre (players_for ["A", "B"] 2 ["F"]) 0)
    ∧ ((process_info none 1 (JobInfo.mk "s" 0 0 0 "A" ["F", "B"] 1)
          (SessionResults.mk [none, none] 1 [3, 5])).1.map ScoreRecord.agent) = ["A", "F"]
    ∧ "F" ∉ (["A", "B"] : List String)
    ∧ finalScoreOf (process_info none 1 (JobInfo.mk "s" 0 0 0 "A" ["F", "B"] 1)
          (SessionResults.mk [none, none] 1 [3, 5])).2 "F" = 3
    ∧ finalScoreOf (process_info none 1 (JobInfo.mk "s" 0 0 0 "A" ["F", "B"] 1)
          (SessionResults.mk [none, none] 1 [3, 5])).2 "B" = 0 := by
  refine ⟨by decide, by decide, by decide, by decide, by decide, ?_, ?_⟩ <;>
    norm_num [process_info, finalScoreOf, List.enum, List.enumFrom, List.filter,
      show (("A" == "F") : Bool) = false from rfl,
      show (("F" == "F") : Bool) = true from rfl,
      show (("A" == "B") : Bool) = false from rfl,
      show (("F" == "B") : Bool) = false from rfl]

end ANL2025
